import Mathlib

/-!
# Verification of the launcher's acquisition-and-synthesis core

A shallow embedding, in Lean 4, of the core functions of
`minecraft_modpack_launcher.py`: the loader-version resolvers, the download
orchestrator, the manual-placement wait, the modpack importers and the
launch-argument synthesizer.  Python strings are embedded as `List Char`,
Python dicts read through `.get` as association lists, and network fetches as
explicit `Except`-valued inputs, so that every function is executable and every
claim about the program can be settled by proof or by evaluation.
-/

set_option maxRecDepth 4000

namespace Launcher

/-- Python strings are embedded as lists of characters. -/
abbrev Str := List Char

/-- Coerce a Lean string literal into the embedding. -/
def chars (s : String) : Str := s.data

/-- The two-character string a residual placeholder starts with. -/
def dollarBrace : Str := chars "$\x7b"

/-- `isPrefArr p s`: does `s` start with `p`?  (Python `str.startswith`.) -/
def isPrefArr : Str → Str → Bool
  | [], _ => true
  | _ :: _, [] => false
  | p :: ps, c :: cs => p = c && isPrefArr ps cs

/-- `hasSub pat s`: does `pat` occur as a contiguous substring of `s`?
(Python `pat in s`; the empty pattern occurs in every string.) -/
def hasSub (pat : Str) : Str → Bool
  | [] => pat.isEmpty
  | c :: cs => isPrefArr pat (c :: cs) || hasSub pat cs

/-- `endsWithArr suf s`: does `s` end with `suf`?  (Python `str.endswith`.) -/
def endsWithArr (suf s : Str) : Bool := isPrefArr suf.reverse s.reverse

/-- Python `str.lower` (ASCII case folding suffices for the loader ids). -/
def lowerArr (s : Str) : Str := s.map Char.toLower

/-- Python `s.split(sep)` for a one-character separator: split on every
occurrence, keeping empty components. -/
def splitOnChar (sep : Char) : Str → List Str
  | [] => [[]]
  | c :: cs =>
    match splitOnChar sep cs, decide (c = sep) with
    | r, true => [] :: r
    | [], false => [[c]]
    | h :: t, false => (c :: h) :: t

/-- Python `s.split(".")`. -/
def splitDot : Str → List Str := splitOnChar '.'

/-- Python `str.split()` with no argument: split on runs of whitespace,
discarding empty fields. -/
def splitWs (s : Str) : List Str :=
  let rec go : Str → Str → List Str
    | acc, [] => if acc.isEmpty then [] else [acc.reverse]
    | acc, c :: cs =>
      if c = ' ' ∨ c = '\t' ∨ c = '\n' ∨ c = '\r' then
        if acc.isEmpty then go [] cs else acc.reverse :: go [] cs
      else go (c :: acc) cs
  go [] s

/-- The scan of `pyReplace`, structurally recursive on a fuel bound (any
`fuel ≥ s.length` computes the replacement; a non-empty match consumes at
least one character, so the fuel never runs out first). -/
def pyReplaceAux (pat rep : Str) : Nat → Str → Str
  | _, [] => []
  | 0, s => s
  | fuel + 1, c :: cs =>
    if pat ≠ [] ∧ isPrefArr pat (c :: cs) = true then
      rep ++ pyReplaceAux pat rep fuel ((c :: cs).drop pat.length)
    else
      c :: pyReplaceAux pat rep fuel cs

/-- Python `s.replace(pat, rep)`: scan left to right, replacing each
non-overlapping occurrence of `pat` by `rep`.  All call sites in the source use
a non-empty literal `pat`; for `pat = []` this embedding returns `s` unchanged. -/
def pyReplace (pat rep s : Str) : Str := pyReplaceAux pat rep s.length s

/-- Python `int(s)`: an optional sign followed by a non-empty digit string
(the call sites only meet version-number components). -/
def pyInt? (s : Str) : Option Int :=
  let digitsVal : Str → Int := fun ds =>
    ds.foldl (fun n c => n * 10 + (c.toNat - 48 : Int)) 0
  match s with
  | '-' :: ds => if ds ≠ [] ∧ ds.all Char.isDigit then some (-(digitsVal ds)) else none
  | '+' :: ds => if ds ≠ [] ∧ ds.all Char.isDigit then some (digitsVal ds) else none
  | ds => if ds ≠ [] ∧ ds.all Char.isDigit then some (digitsVal ds) else none

/-! ## Loader-version resolvers

`get_available_forge_versions`, `get_available_neoforge_versions` and
`get_available_fabric_versions` each wrap one or two network fetches in a
`try`/`except` returning a `"latest"` sentinel.  The fetch (together with the
JSON/XML parse) is embedded as an `Except Unit _` input. -/

/-- Python list comparison `a <= b` on integer lists (elementwise, a strict
prefix is smaller). -/
def pyLeB : List Int → List Int → Bool
  | [], _ => true
  | _ :: _, [] => false
  | a :: as, b :: bs => if a < b then true else if b < a then false else pyLeB as bs

/-- The loop `for key, version in promos.items(): if key.startswith(mc + "-"):
if version not in versions: versions.append(version)` of
`get_available_forge_versions`. -/
def collectForge (mc : Str) : List Str → List (Str × Str) → List Str
  | acc, [] => acc
  | acc, (key, version) :: rest =>
    if isPrefArr (mc ++ chars "-") key ∧ version ∉ acc then
      collectForge mc (acc ++ [version]) rest
    else
      collectForge mc acc rest

/-- The loop of `get_available_neoforge_versions`: keep each `<version>` text
whose leading dot-component equals the game version's leading component,
deduplicated in first-occurrence order. -/
def collectNeoForge (mc : Str) : List Str → List Str → List Str
  | acc, [] => acc
  | acc, v :: rest =>
    if (splitDot v).headI = (splitDot mc).headI ∧ v ∉ acc then
      collectNeoForge mc (acc ++ [v]) rest
    else
      collectNeoForge mc acc rest

/-- `[int(n) for n in x.split(".")]` — the Forge sort key. -/
def forgeKey? (v : Str) : Option (List Int) :=
  (splitDot v).mapM pyInt?

/-- `[int(n) for n in x.split(".")[0:2]]` — the NeoForge sort key
(only the first two version components). -/
def neoforgeKey? (v : Str) : Option (List Int) :=
  ((splitDot v).take 2).mapM pyInt?

/-- `versions.sort(key=k, reverse=True)` guarded by `try`/`except`:
CPython computes all keys first, so if any key raises the list is left
untouched and the `except` branch runs `versions.reverse()` instead.
The sort itself is stable and descending on the key. -/
def trySortDesc (key? : Str → Option (List Int)) (versions : List Str) : List Str :=
  if versions.all (fun v => (key? v).isSome) then
    versions.insertionSort
      (fun a b => pyLeB ((key? b).getD []) ((key? a).getD []) = true)
  else
    versions.reverse

/-- `get_available_forge_versions(mc_version)`, with the fetched-and-parsed
promotions map supplied as input. -/
def get_available_forge_versions
    (fetched : Except Unit (List (Str × Str))) (mc : Str) : List Str :=
  match fetched with
  | .error _ => [chars "latest"]
  | .ok promos =>
    let versions := collectForge mc [] promos
    let versions := trySortDesc forgeKey? versions
    if versions.isEmpty then [chars "latest"] else versions

/-- `get_available_neoforge_versions(mc_version)`, with the fetched-and-parsed
list of `<version>` texts supplied as input.  Returns at most 15 candidates. -/
def get_available_neoforge_versions
    (fetched : Except Unit (List Str)) (mc : Str) : List Str :=
  match fetched with
  | .error _ => [chars "latest"]
  | .ok texts =>
    let versions := collectNeoForge mc [] texts
    let versions := trySortDesc neoforgeKey? versions
    if versions.isEmpty then [chars "latest"] else versions.take 15

/-- `get_available_fabric_versions(mc_version)`: the two fetches (loader list
and installer list) happen inside one `try`, so they are embedded as a single
`Except`-valued pair of version-field lists (a loader entry missing its
`version` field reads as `""`). -/
def get_available_fabric_versions
    (fetched : Except Unit (List Str × List Str)) : List (Str × Str) :=
  match fetched with
  | .error _ => [(chars "latest", chars "latest")]
  | .ok (loaders, installers) =>
    match loaders, installers with
    | [], _ => [(chars "latest", chars "latest")]
    | _ :: _, [] => [(chars "latest", chars "latest")]
    | ls@(_ :: _), latestInstaller :: _ =>
      let versions :=
        ((ls.take 10).filter (fun lv => ¬ lv = [])).map (fun lv => (lv, latestInstaller))
      if versions.isEmpty then [(chars "latest", chars "latest")] else versions

/-! ## Download orchestrator

`download_to_file` and `parallel_download_files`.  The filesystem is embedded
as a path-to-content association list, the network as a `fetch` function from
URL to `Except` (error string or fetched content), and the injected logger as
an accumulated message list. -/

/-- A download task `(url, dest_path, description)`. -/
structure DTask where
  url : Str
  dest : Str
  desc : Str
deriving DecidableEq

/-- The destination filesystem: a list of `(path, content)` pairs. -/
abbrev FS := List (Str × Str)

/-- Does `path` exist in the filesystem? -/
def fsHas (fs : FS) (path : Str) : Bool := fs.any (fun e => e.1 = path)

/-- Write `content` at `path`, overwriting any previous content. -/
def fsWrite (fs : FS) (path content : Str) : FS :=
  (fs.filter (fun e => ¬ e.1 = path)) ++ [(path, content)]

/-- The network: a URL either yields content or an error message. -/
abbrev Fetch := Str → Except Str Str

/-- `PARALLEL_DOWNLOADS_ENABLED = True` (module constant). -/
def PARALLEL_DOWNLOADS_ENABLED : Bool := true

/-- `download_to_file(url, dest)`: create the parent directory (implicit in
this filesystem embedding), open the URL and stream it to `dest`.  There is no
existence check: an existing destination is fetched again and overwritten. -/
def download_to_file (fetch : Fetch) (fs : FS) (url dest : Str) : Except Str FS :=
  match fetch url with
  | .ok content => .ok (fsWrite fs dest content)
  | .error e => .error e

/-- `f"Downloading {desc}..."` — the per-task progress message of the
sequential branch. -/
def dlMsg (t : DTask) : Str := chars "Downloading " ++ t.desc ++ chars "..."

/-- `f"Failed to download {desc}: {e}"` — the failure message naming the
task's label and its cause. -/
def failMsg (t : DTask) (e : Str) : Str :=
  chars "Failed to download " ++ t.desc ++ chars ": " ++ e

/-- The sequential branch of `parallel_download_files`: log
`"Downloading <desc>..."`, download, and on the first exception log
`"Failed to download <desc>: <e>"` and re-raise. -/
def seqDownloads (fetch : Fetch) : List DTask → FS → List Str × Except Str FS
  | [], fs => ([], .ok fs)
  | t :: ts, fs =>
    match download_to_file fetch fs t.url t.dest with
    | .ok fs' =>
      let (log, res) := seqDownloads fetch ts fs'
      (dlMsg t :: log, res)
    | .error e =>
      ([dlMsg t, failMsg t e], .error e)

/-- The parallel branch of `parallel_download_files`, deterministically: every
task is submitted to the pool up front (so every task's fetch runs), and the
result loop walks the futures in submission order, counting completions and
raising `RuntimeError` at the first failed future. -/
def parResultLoop (total : Nat) :
    List (DTask × Except Str Str) → Nat → FS → List Str × Except Str FS
  | [], _, fs => ([], .ok fs)
  | (t, r) :: rest, completed, fs =>
    match r with
    | .ok content =>
      let msg := chars "Downloaded " ++ t.desc ++ chars " (" ++
        Nat.toDigits 10 (completed + 1) ++ chars "/" ++ Nat.toDigits 10 total ++ chars ")"
      let (log, res) := parResultLoop total rest (completed + 1) (fsWrite fs t.dest content)
      (msg :: log, res)
    | .error e =>
      ([failMsg t e], .error (failMsg t e))

/-- `parallel_download_files(download_tasks, logger)`: with parallel downloads
disabled or at most one task, run sequentially; otherwise submit all tasks and
collect results in submission order. -/
def parallel_download_files (parallelEnabled : Bool) (fetch : Fetch)
    (tasks : List DTask) (fs : FS) : List Str × Except Str FS :=
  if ¬ parallelEnabled ∨ tasks.length ≤ 1 then
    seqDownloads fetch tasks fs
  else
    parResultLoop tasks.length (tasks.map (fun t => (t, fetch t.url))) 0 fs

/-- The asset-task construction loop of `download_vanilla_version`
(lines 969–979): for each `(name, hash)` object, the target
`objects/<prefix>/<hash>` is skipped when it already exists; only the
remaining objects become download tasks. -/
def assetTasksOf (assetBase objectsDir : Str) (objects : List (Str × Str))
    (fs : FS) : List DTask :=
  objects.filterMap (fun o =>
    let hash := o.2
    let pfx := hash.take 2
    let url := assetBase ++ chars "/" ++ pfx ++ chars "/" ++ hash
    let target := objectsDir ++ chars "/" ++ pfx ++ chars "/" ++ hash
    if fsHas fs target then none else some ⟨url, target, o.1⟩)

/-! ## Manual-placement wait

`_wait_for_manual_loader`: ask the user, then poll the loaders directory once
per second for up to 300 seconds.  Wall-clock time is embedded as the poll
index: `dirAt t` is the directory listing seen by the scan in the iteration
where `elapsed = t`. -/

/-- Outcome of the wait. -/
inductive WaitResult where
  | cancelled
  | found (t : Nat) (file : Str)
  | timedOut
deriving DecidableEq

/-- One scan: `for file in loaders_dir.glob("*.jar"): if search_pattern in
file.name: return file` — the first `.jar` entry whose name contains the
pattern. -/
def scanDir (listing : List Str) (pat : Str) : Option Str :=
  (listing.filter (fun f => endsWithArr (chars ".jar") f)).find? (fun f => hasSub pat f)

/-- `"Still waiting for modloader (<elapsed>s)..."`. -/
def stillMsg (elapsed : Nat) : Str :=
  chars "Still waiting for modloader (" ++ Nat.toDigits 10 elapsed ++ chars "s)..."

/-- The polling loop: scan, sleep one second, bump `elapsed`, emit a status
message when `elapsed` is a multiple of 5, and give up once `elapsed` reaches
300 (`fuel = 300 - elapsed`). -/
def pollLoop (dirAt : Nat → List Str) (pat : Str) :
    Nat → Nat → List Str × WaitResult
  | _, 0 => ([], .timedOut)
  | elapsed, fuel + 1 =>
    match scanDir (dirAt elapsed) pat with
    | some f => ([chars "Found modloader: " ++ f], .found elapsed f)
    | none =>
      let e' := elapsed + 1
      let (log, res) := pollLoop dirAt pat e' fuel
      if e' % 5 = 0 then (stillMsg e' :: log, res) else (log, res)

/-- `_wait_for_manual_loader(loaders_dir, search_pattern, logger)`:
`confirm` is the boolean returned by the yes/no prompt; declining raises
(`cancelled`), otherwise poll for at most 300 seconds. -/
def wait_for_manual_loader (confirm : Bool) (dirAt : Nat → List Str)
    (pat : Str) : List Str × WaitResult :=
  if ¬ confirm then ([], .cancelled)
  else
    let (log, res) := pollLoop dirAt pat 0 300
    (chars "Waiting for modloader to be placed..." :: log, res)

/-! ## Argument synthesizer

`generate_java_args_from_version_json`.  The Mojang version JSON is embedded
by the fields the function reads; a structured argument entry is `some s` for
a plain string and `none` for a non-string (conditional dict) entry, which the
source skips.  Filesystem-derived strings (the `os.walk` listing of the
library root, the resolved assets root, the default instances directory) are
inputs. -/

/-- The `arguments` object of a version JSON: the `jvm` and `game` lists,
where `none` stands for a non-string structured entry. -/
structure MojArguments where
  jvm : List (Option Str)
  game : List (Option Str)

/-- The fields of the version JSON read by the synthesizer.  `arguments =
none` covers an absent (or empty, hence falsy) `arguments` object, in which
case the legacy `minecraftArguments` blob is split on whitespace. -/
structure VersionData where
  arguments : Option MojArguments
  minecraftArguments : Str
  mainClass : Option Str
  assetIndexId : Option Str

/-- The configuration map, read through `config.get`. -/
abbrev Config := List (Str × Str)

/-- `config.get(key)` → `none` when absent. -/
def cfgGet (cfg : Config) (key : Str) : Option Str :=
  (cfg.find? (fun p => p.1 = key)).map (fun p => p.2)

/-- `config.get(key, default)`. -/
def cfgGetD (cfg : Config) (key dflt : Str) : Str := (cfgGet cfg key).getD dflt

/-- The non-JSON inputs of `generate_java_args_from_version_json`:
the version id, the platform, the `os.walk` listing of the libraries
directory as `(dirpath, filename)` pairs, the path-component separator used
by `Path` joins, the `versions/<id>` directory, the resolved assets
directory, and the resolved default instances directory
`INSTALL_DIR / "instances" / version_id`. -/
structure SynthInput where
  version_id : Str
  version_data : VersionData
  isWindows : Bool
  walkFiles : List (Str × Str)
  psep : Char
  versionsDirPath : Str
  assetsRootPath : Str
  defaultGameDir : Str

/-- The structured JVM argument strings (or `[]` on the legacy path). -/
def jvmArgs0 (inp : SynthInput) : List Str :=
  match inp.version_data.arguments with
  | some a => a.jvm.filterMap id
  | none => []

/-- The structured game argument strings, or the whitespace-split legacy
`minecraftArguments` blob when the structured form is absent. -/
def gameArgs0 (inp : SynthInput) : List Str :=
  match inp.version_data.arguments with
  | some a => a.game.filterMap id
  | none => splitWs inp.version_data.minecraftArguments

/-- The classpath entries: every `.jar` file under the library root in walk
order, then the client artifact `versions/<id>/<id>.jar` last. -/
def cpEntries (inp : SynthInput) : List Str :=
  (inp.walkFiles.filter (fun p => endsWithArr (chars ".jar") p.2)).map
      (fun p => p.1 ++ [inp.psep] ++ p.2)
    ++ [inp.versionsDirPath ++ [inp.psep] ++ inp.version_id ++ chars ".jar"]

/-- The joined classpath: `";"` on Windows, `":"` otherwise. -/
def classpathOf (inp : SynthInput) : Str :=
  List.intercalate (if inp.isWindows then chars ";" else chars ":") (cpEntries inp)

/-- `config.get("minecraft_dir") or str((INSTALL_DIR / "instances" /
version_id).resolve())` — Python `or` treats both an absent key and an empty
string as missing. -/
def gameDirOf (inp : SynthInput) (cfg : Config) : Str :=
  match cfgGet cfg (chars "minecraft_dir") with
  | some v => if v = [] then inp.defaultGameDir else v
  | none => inp.defaultGameDir

/-- `version_data.get("assetIndex", {}).get("id", "assets")`. -/
def assetIndexNameOf (inp : SynthInput) : Str :=
  inp.version_data.assetIndexId.getD (chars "assets")

/-- The fixed substitution table, in source order. -/
def substitutionsFor (inp : SynthInput) (cfg : Config) : List (Str × Str) :=
  [ (chars "${auth_player_name}", cfgGetD cfg (chars "auth_player_name") (chars "Player")),
    (chars "${version_name}", inp.version_id),
    (chars "${game_directory}", gameDirOf inp cfg),
    (chars "${assets_root}", inp.assetsRootPath),
    (chars "${assets_index_name}", assetIndexNameOf inp),
    (chars "${auth_uuid}", cfgGetD cfg (chars "auth_uuid")
      (chars "00000000-0000-0000-0000-000000000000")),
    (chars "${auth_access_token}", cfgGetD cfg (chars "auth_access_token") (chars "0")),
    (chars "${user_type}", cfgGetD cfg (chars "user_type") (chars "mojang")),
    (chars "${version_type}", cfgGetD cfg (chars "version_type") (chars "release")),
    (chars "${clientid}", chars "0"),
    (chars "${auth_xuid}", chars "") ]

/-- `apply_substitutions(arg)`: iterate `arg.replace(key, value)` over the
table in order. -/
def applySubstitutions (subs : List (Str × Str)) (arg : Str) : Str :=
  subs.foldl (fun a kv => pyReplace kv.1 kv.2 a) arg

/-- The emitted `java_args_<version>.txt`, line by line: the JVM arguments
(with `-cp <classpath>` appended), then the main class, then the game
arguments with the substitution table applied.  Only game arguments are
substituted. -/
def generate_java_args_lines (inp : SynthInput) (cfg : Config) : List Str :=
  let jvm_args := jvmArgs0 inp ++ [chars "-cp", classpathOf inp]
  let main_class := inp.version_data.mainClass.getD (chars "net.minecraft.client.main.Main")
  let subs := substitutionsFor inp cfg
  let game_args := (gameArgs0 inp).map (applySubstitutions subs)
  jvm_args ++ [main_class] ++ game_args

/-! ## Pack importers

`import_curseforge_modpack` and `import_modrinth_modpack`.  The archive is
embedded by its name list (payload bytes are irrelevant to the claims: the
extraction loops record which entries are written where), the manifest or
index document by the fields the importer reads, and the per-entry CurseForge
API lookup by a resolver function. -/

/-- The loader-id heuristic shared verbatim by both importers: `neoforge`
is tested before `forge`, then `fabric`; otherwise the initial `"vanilla"`
survives.  The substring tests are on the lowercased id. -/
def detectLoader (loader_id : Str) : Str :=
  if hasSub (chars "neoforge") (lowerArr loader_id) then chars "neoforge"
  else if hasSub (chars "forge") (lowerArr loader_id) then chars "forge"
  else if hasSub (chars "fabric") (lowerArr loader_id) then chars "fabric"
  else chars "vanilla"

/-- CurseForge only: `loader_id.split("-")[-1] if "-" in loader_id else ""`. -/
def loaderVersionOfId (loader_id : Str) : Str :=
  if hasSub (chars "-") loader_id then (splitOnChar '-' loader_id).getLastD []
  else []

/-- `get_curseforge_file_download_url(project_id, file_id, api_key)`: the API
response is supplied as input — `error` for any exception, `ok none` when the
`data` field is absent/falsy or `downloadUrl` is null, `ok (some u)` for a
URL.  Every failure path returns the empty string; the function never
raises. -/
def get_curseforge_file_download_url (response : Except Unit (Option Str)) : Str :=
  match response with
  | .error _ => []
  | .ok none => []
  | .ok (some u) => u

/-- One `files` entry of a CurseForge manifest; `projectID`/`fileID` are
absent (`none`) or numeric, and `required` defaults to `True`.  The source
guard `if not project_id or not file_id: continue` treats `0` like absence. -/
structure CFEntry where
  projectID : Option Nat
  fileID : Option Nat
  required : Bool
deriving DecidableEq

/-- Python truthiness of an optional integer. -/
def truthyNat : Option Nat → Bool
  | none => false
  | some n => n ≠ 0

/-- The CurseForge manifest fields the importer reads. -/
structure CFManifest where
  mc_version : Str
  modLoaders : List Str
  files : List CFEntry

/-- What the CurseForge import produces (besides the filesystem effects of
the download batch): the detected triple, the skip warnings, the download
tasks handed to the orchestrator, the bundled mods extracted from the archive
and the override entries copied verbatim. -/
structure CFImportResult where
  mc_version : Str
  loader : Str
  loader_version : Str
  warnings : List Str
  tasks : List DTask
  extracted : List Str
  overrides : List Str
deriving DecidableEq

/-- The manifest `files` loop: entries with falsy ids are skipped silently;
a resolvable entry becomes a download task into `mods/`; an unresolvable
entry is a warning when `required`, and silent otherwise. -/
def cfTasksWarnings (resolver : Nat → Nat → Str) (modsDir : Str) :
    List CFEntry → List DTask × List Str
  | [] => ([], [])
  | e :: rest =>
    let (ts, ws) := cfTasksWarnings resolver modsDir rest
    if truthyNat e.projectID ∧ truthyNat e.fileID then
      let pid := e.projectID.getD 0
      let fid := e.fileID.getD 0
      let url := resolver pid fid
      if url ≠ [] then
        let filename :=
          let last := (splitOnChar '/' url).getLastD []
          if last = [] then
            chars "mod_" ++ Nat.toDigits 10 pid ++ chars "_" ++
              Nat.toDigits 10 fid ++ chars ".jar"
          else last
        let desc := filename ++ chars " (proj:" ++ Nat.toDigits 10 pid ++ chars ")"
        (⟨url, modsDir ++ chars "/" ++ filename, desc⟩ :: ts, ws)
      else if e.required then
        (ts, (chars "Warning: Could not get download URL for mod " ++
          Nat.toDigits 10 pid ++ chars "/" ++ Nat.toDigits 10 fid) :: ws)
      else
        (ts, ws)
    else
      (ts, ws)

/-- `import_curseforge_modpack(zip_path, dest_modpack_dir, logger, api_key)`.
`manifest` is `none` when no archive entry ends in `manifest.json`.  The
function only raises out of the orchestrator call on the collected download
tasks; an unresolvable entry itself never raises. -/
def import_curseforge_modpack (manifest : Option CFManifest)
    (namelist : List Str) (resolver : Nat → Nat → Str) (modsDir : Str)
    (parallelEnabled : Bool) (fetch : Fetch) (fs : FS) :
    Except Str CFImportResult :=
  let detected :=
    match manifest with
    | none => (chars "", chars "vanilla", chars "", ([], []))
    | some m =>
      let loader :=
        match m.modLoaders with
        | [] => chars "vanilla"
        | loader_id :: _ => detectLoader loader_id
      let lver :=
        match m.modLoaders with
        | [] => []
        | loader_id :: _ =>
          if detectLoader loader_id = chars "vanilla" then [] else loaderVersionOfId loader_id
      (m.mc_version, loader, lver, cfTasksWarnings resolver modsDir m.files)
  let (mc, loader, lver, tw) := detected
  let extracted :=
    (namelist.filter (fun n =>
      isPrefArr (chars "mods/") n ∧ endsWithArr (chars ".jar") n)).map
      (fun n => n.drop (chars "mods/").length)
  let copied :=
    (namelist.filter (fun n =>
      isPrefArr (chars "overrides/") n ∧ ¬ endsWithArr (chars "/") n)).map
      (fun n => n.drop (chars "overrides/").length)
  let runDownloads :=
    if tw.1.isEmpty then Except.ok fs
    else (parallel_download_files parallelEnabled fetch tw.1 fs).2
  match runDownloads with
  | .error e => .error e
  | .ok _ => .ok ⟨mc, loader, lver, tw.2, tw.1, extracted, copied⟩

/-- A `loaders` entry of a Modrinth index: `id` and `version` read with
default `""`. -/
structure MRLoaderEntry where
  id : Str
  version : Str

/-- A `files` entry of a Modrinth index: `path` (falsy when empty) and the
`downloads` URL list. -/
structure MRFileEntry where
  path : Str
  downloads : List Str

/-- The Modrinth index fields the importer reads. -/
structure MRIndex where
  gameVersion : Str
  loaders : List MRLoaderEntry
  files : List MRFileEntry

/-- What the Modrinth import produces. -/
structure MRImportResult where
  mc_version : Str
  loader : Str
  loader_version : Str
  tasks : List DTask
  overrides : List Str
deriving DecidableEq

/-- `import_modrinth_modpack(zip_path, dest_modpack_dir, logger)`: raises when
the archive has no `modrinth.index.json` (`index = none`); entries with a
falsy path or no download URL are skipped; the rest become download tasks
into the destination root. -/
def import_modrinth_modpack (index : Option MRIndex) (namelist : List Str)
    (destDir : Str) (parallelEnabled : Bool) (fetch : Fetch) (fs : FS) :
    Except Str MRImportResult :=
  match index with
  | none => .error (chars "modrinth.index.json not found in .mrpack")
  | some idx =>
    let loader :=
      match idx.loaders with
      | [] => chars "vanilla"
      | entry :: _ => detectLoader entry.id
    let lver :=
      match idx.loaders with
      | [] => []
      | entry :: _ => if detectLoader entry.id = chars "vanilla" then [] else entry.version
    let tasks := idx.files.filterMap (fun f =>
      match f.downloads with
      | [] => none
      | url :: _ =>
        if f.path = [] then none
        else some ⟨url, destDir ++ chars "/" ++ f.path, f.path⟩)
    let copied :=
      (namelist.filter (fun n =>
        isPrefArr (chars "overrides/") n ∧ ¬ endsWithArr (chars "/") n)).map
        (fun n => n.drop (chars "overrides/").length)
    let runDownloads :=
      if tasks.isEmpty then Except.ok fs
      else (parallel_download_files parallelEnabled fetch tasks fs).2
    match runDownloads with
    | .error e => .error e
    | .ok _ => .ok ⟨idx.gameVersion, loader, lver, tasks, copied⟩

/-- The status messages the polling loop emits between `elapsed` and
`elapsed + fuel` when no scan succeeds: one `stillMsg` at every multiple of
five seconds. -/
def stillLog (elapsed : Nat) : Nat → List Str
  | 0 => []
  | fuel + 1 =>
    let rest := stillLog (elapsed + 1) fuel
    if (elapsed + 1) % 5 = 0 then stillMsg (elapsed + 1) :: rest else rest

/-- A progress message (the sequential branch emits one per started task). -/
def isProgressMsg (m : Str) : Bool := isPrefArr (chars "Downloading ") m


/-- The warning `f"Warning: Could not get download URL for mod
{project_id}/{file_id}"` emitted for a required entry whose API lookup
yielded no URL. -/
def warnOf (e : CFEntry) : Str :=
  chars "Warning: Could not get download URL for mod " ++
    Nat.toDigits 10 (e.projectID.getD 0) ++ chars "/" ++
    Nat.toDigits 10 (e.fileID.getD 0)

/-- The bundled mods a CurseForge archive listing yields: every name under
`mods/` ending in `.jar`, relative to the `mods/` prefix . -/
def bundledModsOf (namelist : List Str) : List Str :=
  (namelist.filter (fun n =>
    isPrefArr (chars "mods/") n ∧ endsWithArr (chars ".jar") n)).map
    (fun n => n.drop (chars "mods/").length)

/-- The keys of the fixed substitution table, in source order. -/
def subKeys : List Str :=
  [chars "${auth_player_name}", chars "${version_name}", chars "${game_directory}",
    chars "${assets_root}", chars "${assets_index_name}", chars "${auth_uuid}",
    chars "${auth_access_token}", chars "${user_type}", chars "${version_type}",
    chars "${clientid}", chars "${auth_xuid}"]

/-- The game-argument templates of a standard (well-formed) Mojang version
descriptor: every `${...}` placeholder occurring in them is one of the fixed
substitution-table tokens. -/
def stdGameArgs : List Str :=
  [chars "--username", chars "${auth_player_name}",
    chars "--version", chars "${version_name}",
    chars "--gameDir", chars "${game_directory}",
    chars "--assetsDir", chars "${assets_root}",
    chars "--assetIndex", chars "${assets_index_name}",
    chars "--uuid", chars "${auth_uuid}",
    chars "--accessToken", chars "${auth_access_token}",
    chars "--clientId", chars "${clientid}",
    chars "--xuid", chars "${auth_xuid}",
    chars "--userType", chars "${user_type}",
    chars "--versionType", chars "${version_type}"]

/-! ## Claims -/

/-! ### Facts about the string primitives -/

theorem isPrefArr_iff (p s : Str) : isPrefArr p s = true ↔ p <+: s := by
  induction p generalizing s with
  | nil => simp [isPrefArr]
  | cons x xs ih =>
    cases s with
    | nil => simp [isPrefArr]
    | cons c cs =>
      simp only [isPrefArr, Bool.and_eq_true, decide_eq_true_eq, ih,
        List.cons_prefix_cons]

theorem hasSub_iff (pat s : Str) : hasSub pat s = true ↔ pat <:+: s := by
  induction s with
  | nil =>
    simp only [hasSub, List.isEmpty_iff]
    constructor
    · rintro rfl; exact List.infix_refl _
    · intro h; exact List.eq_nil_of_infix_nil h
  | cons c cs ih =>
    simp only [hasSub, Bool.or_eq_true, isPrefArr_iff, ih, List.infix_cons_iff]

theorem isPrefArr_refl (p : Str) : isPrefArr p p = true := by
  rw [isPrefArr_iff]

theorem pyReplaceAux_nil (pat rep : Str) (fuel : Nat) :
    pyReplaceAux pat rep fuel [] = [] := by
  cases fuel <;> rfl

/-- A replacement whose pattern does not occur leaves the string unchanged
(whatever the fuel). -/
theorem pyReplaceAux_of_not_hasSub (pat rep : Str) :
    ∀ (fuel : Nat) (s : Str), hasSub pat s = false →
      pyReplaceAux pat rep fuel s = s := by
  intro fuel
  induction fuel with
  | zero => intro s _; cases s <;> rfl
  | succ fuel ih =>
    intro s h
    cases s with
    | nil => rfl
    | cons c cs =>
      have h' : isPrefArr pat (c :: cs) = false ∧ hasSub pat cs = false :=
        Bool.or_eq_false_iff.mp (by simpa [hasSub] using h)
      rw [pyReplaceAux, if_neg (by simp [h'.1]), ih cs h'.2]

/-- A replacement whose pattern does not occur leaves the string unchanged. -/
theorem pyReplace_of_not_hasSub {pat s : Str} (rep : Str)
    (h : hasSub pat s = false) : pyReplace pat rep s = s :=
  pyReplaceAux_of_not_hasSub pat rep s.length s h

/-- Replacing a non-empty string by `rep` inside itself yields exactly `rep`. -/
theorem pyReplace_self {pat : Str} (rep : Str) (h : pat ≠ []) :
    pyReplace pat rep pat = rep := by
  cases pat with
  | nil => exact absurd rfl h
  | cons c cs =>
    unfold pyReplace
    simp only [List.length_cons]
    rw [pyReplaceAux, if_pos ⟨h, isPrefArr_refl _⟩]
    rw [show (c :: cs).drop (c :: cs).length = [] from List.drop_length _]
    rw [pyReplaceAux_nil]
    simp

/-- If the pattern contains `sub` and the pattern occurs in `s`, then `sub`
occurs in `s` (used with `sub = "${"` and the substitution keys). -/
theorem hasSub_of_hasSub_of_hasSub {sub pat s : Str}
    (h1 : hasSub sub pat = true) (h2 : hasSub pat s = true) :
    hasSub sub s = true := by
  rw [hasSub_iff] at *
  exact h1.trans h2

theorem not_hasSub_of_pref_of_not_hasSub {sub pat s : Str}
    (h1 : isPrefArr sub pat = true) (h2 : hasSub sub s = false) :
    hasSub pat s = false := by
  by_contra h
  have hp : hasSub pat s = true := by
    cases hx : hasSub pat s with
    | false => exact absurd hx h
    | true => rfl
  have : hasSub sub s = true :=
    hasSub_of_hasSub_of_hasSub (by rw [hasSub_iff]; exact ((isPrefArr_iff _ _).mp h1).isInfix) hp
  rw [this] at h2; cases h2


/-- C10: in both pack importers, the detected loader kind is one of
`vanilla`, `forge`, `fabric`, `neoforge`, and any loader identifier containing
the substring `neoforge` (case-insensitive) is classified as `neoforge` and
never as `forge`, because the `neoforge` test precedes the `forge` substring
test. -/
theorem C10_loader_detection :
    (∀ s : Str,
      (detectLoader s = chars "vanilla" ∨ detectLoader s = chars "forge" ∨
        detectLoader s = chars "fabric" ∨ detectLoader s = chars "neoforge") ∧
      (hasSub (chars "neoforge") (lowerArr s) = true →
        detectLoader s = chars "neoforge")) ∧
    (∀ manifest namelist resolver modsDir pe fetch fs res,
      import_curseforge_modpack manifest namelist resolver modsDir pe fetch fs
        = .ok res →
      res.loader = chars "vanilla" ∨ res.loader = chars "forge" ∨
        res.loader = chars "fabric" ∨ res.loader = chars "neoforge") ∧
    (∀ index namelist destDir pe fetch fs res,
      import_modrinth_modpack index namelist destDir pe fetch fs = .ok res →
      res.loader = chars "vanilla" ∨ res.loader = chars "forge" ∨
        res.loader = chars "fabric" ∨ res.loader = chars "neoforge") := by
  have base : ∀ s : Str,
      (detectLoader s = chars "vanilla" ∨ detectLoader s = chars "forge" ∨
        detectLoader s = chars "fabric" ∨ detectLoader s = chars "neoforge") ∧
      (hasSub (chars "neoforge") (lowerArr s) = true →
        detectLoader s = chars "neoforge") := by
    intro s
    constructor
    · unfold detectLoader
      split
      · right; right; right; rfl
      · split
        · right; left; rfl
        · split
          · right; right; left; rfl
          · left; rfl
    · intro h
      unfold detectLoader
      rw [if_pos h]
  refine ⟨base, ?_, ?_⟩
  · intro manifest namelist resolver modsDir pe fetch fs res hok
    unfold import_curseforge_modpack at hok
    cases manifest with
    | none =>
      simp only at hok
      split at hok
      · cases hok
      · cases hok; left; rfl
    | some m =>
      simp only at hok
      split at hok
      · cases hok
      · cases hok
        cases m.modLoaders with
        | nil => left; rfl
        | cons loader_id rest => exact (base loader_id).1
  · intro index namelist destDir pe fetch fs res hok
    unfold import_modrinth_modpack at hok
    cases index with
    | none => cases hok
    | some idx =>
      simp only at hok
      split at hok
      · cases hok
      · cases hok
        cases idx.loaders with
        | nil => left; rfl
        | cons entry rest => exact (base entry.id).1

/-- C10 witness: an identifier containing `NeoForge` is classified as
`neoforge`, through the theorem itself. -/
theorem C10_loader_detection_witness :
    detectLoader (chars "NeoForge-21.1.72") = chars "neoforge" :=
  (C10_loader_detection.1 (chars "NeoForge-21.1.72")).2 (by decide)

/-- C5: each loader-version resolver maps a throwing remote call, and an
empty remote candidate set, to the single sentinel `latest` entry (for
Fabric the pair `("latest","latest")`), instead of propagating the error;
being total Lean functions, the embedded resolvers cannot raise. -/
theorem C5_resolver_sentinel :
    (∀ (mc : Str) (installers loaders : List Str),
      get_available_forge_versions (.error ()) mc = [chars "latest"] ∧
      get_available_forge_versions (.ok []) mc = [chars "latest"] ∧
      get_available_neoforge_versions (.error ()) mc = [chars "latest"] ∧
      get_available_neoforge_versions (.ok []) mc = [chars "latest"] ∧
      get_available_fabric_versions (.error ()) = [(chars "latest", chars "latest")] ∧
      get_available_fabric_versions (.ok ([], installers))
        = [(chars "latest", chars "latest")] ∧
      get_available_fabric_versions (.ok (loaders, []))
        = [(chars "latest", chars "latest")]) ∧
    (∀ (mc : Str) (promos : List (Str × Str)),
      collectForge mc [] promos = [] →
      get_available_forge_versions (.ok promos) mc = [chars "latest"]) ∧
    (∀ (mc : Str) (texts : List Str),
      collectNeoForge mc [] texts = [] →
      get_available_neoforge_versions (.ok texts) mc = [chars "latest"]) := by
  refine ⟨?_, ?_, ?_⟩
  · intro mc installers loaders
    refine ⟨rfl, rfl, rfl, rfl, rfl, rfl, ?_⟩
    cases loaders <;> rfl
  · intro mc promos h
    unfold get_available_forge_versions
    simp only [h]
    rfl
  · intro mc texts h
    unfold get_available_neoforge_versions
    simp only [h]
    rfl

/-- C5 witness: a fetched candidate set that filters to nothing also yields
the sentinel, at concrete inputs, through the theorem itself. -/
theorem C5_resolver_sentinel_witness :
    get_available_forge_versions
        (.ok [(chars "1.20.2-latest", chars "48.0.1")]) (chars "1.20.1")
      = [chars "latest"] ∧
    get_available_neoforge_versions (.ok [chars "21.0.1"]) (chars "20.4")
      = [chars "latest"] :=
  ⟨C5_resolver_sentinel.2.1 (chars "1.20.1") [(chars "1.20.2-latest", chars "48.0.1")]
      (by decide),
    C5_resolver_sentinel.2.2 (chars "20.4") [chars "21.0.1"] (by decide)⟩

/-- C7: with a library root walk yielding exactly two (distinct) library jar
files, the classpath entry list is the two library paths followed by the
client artifact `versions/<id>/<id>.jar` last, each exactly once, and the
joined classpath uses `;` on Windows and `:` otherwise. -/
theorem C7_classpath_roundtrip (inp : SynthInput) (d1 f1 d2 f2 : Str)
    (hwalk : inp.walkFiles = [(d1, f1), (d2, f2)])
    (hjar1 : endsWithArr (chars ".jar") f1 = true)
    (hjar2 : endsWithArr (chars ".jar") f2 = true)
    (hne12 : d1 ++ [inp.psep] ++ f1 ≠ d2 ++ [inp.psep] ++ f2)
    (hne1c : d1 ++ [inp.psep] ++ f1
      ≠ inp.versionsDirPath ++ [inp.psep] ++ inp.version_id ++ chars ".jar")
    (hne2c : d2 ++ [inp.psep] ++ f2
      ≠ inp.versionsDirPath ++ [inp.psep] ++ inp.version_id ++ chars ".jar") :
    cpEntries inp =
      [d1 ++ [inp.psep] ++ f1, d2 ++ [inp.psep] ++ f2,
        inp.versionsDirPath ++ [inp.psep] ++ inp.version_id ++ chars ".jar"] ∧
    (cpEntries inp).count (d1 ++ [inp.psep] ++ f1) = 1 ∧
    (cpEntries inp).count (d2 ++ [inp.psep] ++ f2) = 1 ∧
    (cpEntries inp).count
      (inp.versionsDirPath ++ [inp.psep] ++ inp.version_id ++ chars ".jar") = 1 ∧
    (cpEntries inp).getLast?
      = some (inp.versionsDirPath ++ [inp.psep] ++ inp.version_id ++ chars ".jar") ∧
    classpathOf inp =
      d1 ++ [inp.psep] ++ f1 ++ (if inp.isWindows then chars ";" else chars ":") ++
        (d2 ++ [inp.psep] ++ f2) ++ (if inp.isWindows then chars ";" else chars ":") ++
        (inp.versionsDirPath ++ [inp.psep] ++ inp.version_id ++ chars ".jar") := by
  have hcp : cpEntries inp =
      [d1 ++ [inp.psep] ++ f1, d2 ++ [inp.psep] ++ f2,
        inp.versionsDirPath ++ [inp.psep] ++ inp.version_id ++ chars ".jar"] := by
    unfold cpEntries
    rw [hwalk]
    simp [hjar1, hjar2]
  have e12 : ¬ (d1 ++ inp.psep :: f1 = d2 ++ inp.psep :: f2) := by simpa using hne12
  have e1c : ¬ (d1 ++ inp.psep :: f1
      = inp.versionsDirPath ++ inp.psep :: (inp.version_id ++ chars ".jar")) := by
    simpa using hne1c
  have e2c : ¬ (d2 ++ inp.psep :: f2
      = inp.versionsDirPath ++ inp.psep :: (inp.version_id ++ chars ".jar")) := by
    simpa using hne2c
  have e21 : ¬ (d2 ++ inp.psep :: f2 = d1 ++ inp.psep :: f1) := fun h => e12 h.symm
  have ec1 : ¬ (inp.versionsDirPath ++ inp.psep :: (inp.version_id ++ chars ".jar")
      = d1 ++ inp.psep :: f1) := fun h => e1c h.symm
  have ec2 : ¬ (inp.versionsDirPath ++ inp.psep :: (inp.version_id ++ chars ".jar")
      = d2 ++ inp.psep :: f2) := fun h => e2c h.symm
  refine ⟨hcp, ?_, ?_, ?_, ?_, ?_⟩
  · rw [hcp]
    simp [List.count_cons, e12, e21, e1c, ec1, e2c, ec2]
  · rw [hcp]
    simp [List.count_cons, e12, e21, e1c, ec1, e2c, ec2]
  · rw [hcp]
    simp [List.count_cons, e12, e21, e1c, ec1, e2c, ec2]
  · rw [hcp]
    rfl
  · unfold classpathOf
    rw [hcp]
    simp [List.intercalate]

/-- C7 witness: the theorem applied to a concrete two-library fixture. -/
theorem C7_classpath_roundtrip_witness :
    cpEntries ⟨chars "1.20.1",
        ⟨none, [], none, none⟩, false,
        [(chars "libraries/a", chars "a.jar"), (chars "libraries/b", chars "b.jar")],
        '/', chars "versions/1.20.1", chars "assets", chars "instances/1.20.1"⟩ =
      [chars "libraries/a/a.jar", chars "libraries/b/b.jar",
        chars "versions/1.20.1/1.20.1.jar"] := by
  have h := C7_classpath_roundtrip
    ⟨chars "1.20.1", ⟨none, [], none, none⟩, false,
      [(chars "libraries/a", chars "a.jar"), (chars "libraries/b", chars "b.jar")],
      '/', chars "versions/1.20.1", chars "assets", chars "instances/1.20.1"⟩
    (chars "libraries/a") (chars "a.jar") (chars "libraries/b") (chars "b.jar")
    rfl (by decide) (by decide) (by decide) (by decide) (by decide)
  exact h.1

/-- A `found` outcome of the polling loop pinpoints the earliest successful
scan within the fuel window. -/
theorem pollLoop_found (fuel : Nat) :
    ∀ (elapsed : Nat) (dirAt : Nat → List Str) (pat : Str) (t : Nat) (f : Str),
      (pollLoop dirAt pat elapsed fuel).2 = .found t f →
      elapsed ≤ t ∧ t < elapsed + fuel ∧ scanDir (dirAt t) pat = some f ∧
        ∀ u, elapsed ≤ u → u < t → scanDir (dirAt u) pat = none := by
  induction fuel with
  | zero => intro elapsed dirAt pat t f h; cases h
  | succ fuel ih =>
    intro elapsed dirAt pat t f h
    rw [pollLoop] at h
    cases hscan : scanDir (dirAt elapsed) pat with
    | some f0 =>
      rw [hscan] at h
      simp only at h
      cases h
      exact ⟨Nat.le_refl _, by omega, hscan, fun u hu1 hu2 => by omega⟩
    | none =>
      rw [hscan] at h
      simp only at h
      have h' : (pollLoop dirAt pat (elapsed + 1) fuel).2 = .found t f := by
        split at h <;> simpa using h
      obtain ⟨h1, h2, h3, h4⟩ := ih (elapsed + 1) dirAt pat t f h'
      refine ⟨by omega, by omega, h3, ?_⟩
      intro u hu1 hu2
      rcases Nat.eq_or_lt_of_le hu1 with rfl | hlt
      · exact hscan
      · exact h4 u hlt hu2

/-- When every scan in the fuel window fails, the polling loop times out and
its log is exactly the five-second status messages. -/
theorem pollLoop_timeout (fuel : Nat) :
    ∀ (elapsed : Nat) (dirAt : Nat → List Str) (pat : Str),
      (∀ u, elapsed ≤ u → u < elapsed + fuel → scanDir (dirAt u) pat = none) →
      pollLoop dirAt pat elapsed fuel = (stillLog elapsed fuel, .timedOut) := by
  induction fuel with
  | zero => intro elapsed dirAt pat _; rfl
  | succ fuel ih =>
    intro elapsed dirAt pat h
    rw [pollLoop]
    have hscan : scanDir (dirAt elapsed) pat = none :=
      h elapsed (Nat.le_refl _) (by omega)
    rw [hscan]
    simp only
    rw [ih (elapsed + 1) dirAt pat (fun u hu1 hu2 => h u (by omega) (by omega))]
    rw [stillLog]
    split <;> rfl

/-- C8 (amended): declining the prompt cancels; after confirmation the
directory is polled once per second for at most 300 seconds — a `found`
outcome happens strictly before 300 seconds at the earliest poll whose listing
contains a matching `.jar` entry, and if no poll in the 300-second window
matches, the wait times out with exactly the every-5-seconds status messages,
60 of them; the wait never blocks beyond the bound. -/
theorem C8_manual_wait_bounded :
    (∀ (dirAt : Nat → List Str) (pat : Str),
      wait_for_manual_loader false dirAt pat = ([], .cancelled)) ∧
    (∀ (confirm : Bool) (dirAt : Nat → List Str) (pat : Str) (t : Nat) (f : Str),
      (wait_for_manual_loader confirm dirAt pat).2 = .found t f →
      t < 300 ∧ scanDir (dirAt t) pat = some f ∧
        ∀ u, u < t → scanDir (dirAt u) pat = none) ∧
    (∀ (dirAt : Nat → List Str) (pat : Str),
      (∀ u, u < 300 → scanDir (dirAt u) pat = none) →
      wait_for_manual_loader true dirAt pat =
        (chars "Waiting for modloader to be placed..." :: stillLog 0 300,
          .timedOut)) ∧
    (stillLog 0 300).length = 60 := by
  refine ⟨fun dirAt pat => rfl, ?_, ?_, by decide⟩
  · intro confirm dirAt pat t f h
    unfold wait_for_manual_loader at h
    cases confirm with
    | false => cases h
    | true =>
      simp only [Bool.not_true] at h
      obtain ⟨h1, h2, h3, h4⟩ := pollLoop_found 300 0 dirAt pat t f (by
        revert h
        cases hp : pollLoop dirAt pat 0 300 with
        | mk log res => intro h; simpa using h)
      exact ⟨by omega, h3, fun u hu => h4 u (Nat.zero_le _) hu⟩
  · intro dirAt pat h
    unfold wait_for_manual_loader
    simp only [Bool.not_true]
    rw [pollLoop_timeout 300 0 dirAt pat (fun u _ hu => h u (by omega))]
    simp

/-- C8 witness: discharging the hypotheses of the theorem at concrete
inputs — declining cancels, and a window with no matching `.jar` (here the
directory always holds only a matching-named `.txt` file) times out. -/
theorem C8_manual_wait_bounded_witness :
    wait_for_manual_loader false (fun _ => []) (chars "forge-") = ([], .cancelled) ∧
    (3 < 300 ∧
      scanDir ((fun t => if 3 ≤ t then [chars "neoforge-x.jar"] else []) 3)
        (chars "neoforge-") = some (chars "neoforge-x.jar") ∧
      ∀ u, u < 3 →
        scanDir ((fun t => if 3 ≤ t then [chars "neoforge-x.jar"] else []) u)
          (chars "neoforge-") = none) ∧
    (wait_for_manual_loader true (fun _ => [chars "neoforge-installer.txt"])
        (chars "neoforge-")).2 = .timedOut := by
  refine ⟨?_, ?_, ?_⟩
  · exact C8_manual_wait_bounded.1 (fun _ => []) (chars "forge-")
  · exact C8_manual_wait_bounded.2.1 true
      (fun t => if 3 ≤ t then [chars "neoforge-x.jar"] else [])
      (chars "neoforge-") 3 (chars "neoforge-x.jar") rfl
  · rw [C8_manual_wait_bounded.2.2.1 (fun _ => [chars "neoforge-installer.txt"])
      (chars "neoforge-") (fun u _ =>
        (by decide : scanDir [chars "neoforge-installer.txt"] (chars "neoforge-")
          = none))]

/-- C8 counterexample: the directory holds, at every poll, a file whose name
contains the search fragment — but it is not a `.jar` file, so the wait times
out instead of returning it: the scan only globs `*.jar`. -/
theorem C8_manual_wait_counterexample :
    hasSub (chars "neoforge-") (chars "neoforge-installer.txt") = true ∧
    (wait_for_manual_loader true (fun _ => [chars "neoforge-installer.txt"])
        (chars "neoforge-")).2 = .timedOut := by
  constructor
  · decide
  · unfold wait_for_manual_loader
    simp only [Bool.not_true]
    rw [pollLoop_timeout 300 0 _ _ (fun u _ _ =>
      (by decide : scanDir [chars "neoforge-installer.txt"] (chars "neoforge-")
        = none))]
    simp

theorem isProgressMsg_dlMsg (t : DTask) : isProgressMsg (dlMsg t) = true := by
  unfold isProgressMsg dlMsg
  rw [isPrefArr_iff]
  exact (chars "Downloading ").prefix_append (t.desc ++ chars "...")

theorem not_isProgressMsg_failMsg (t : DTask) (e : Str) :
    isProgressMsg (failMsg t e) = false := rfl

/-- Sequential run with the first failure at task `t`: the log is one
progress message per task up to and including `t` followed by the labelled
failure message, the run re-raises the cause, and the tasks after `t` are
never consulted. -/
theorem seqDownloads_first_failure (fetch : Fetch) (pre : List DTask)
    (t : DTask) (e : Str) (hfail : fetch t.url = .error e) :
    ∀ (post : List DTask) (fs : FS),
      (∀ p ∈ pre, (fetch p.url).isOk = true) →
      seqDownloads fetch (pre ++ t :: post) fs
        = (pre.map dlMsg ++ [dlMsg t, failMsg t e], .error e) := by
  induction pre with
  | nil =>
    intro post fs _
    simp only [List.nil_append, List.map_nil]
    rw [seqDownloads]
    unfold download_to_file
    rw [hfail]
  | cons p pre ih =>
    intro post fs hok
    have hp : (fetch p.url).isOk = true := hok p (List.mem_cons_self _ _)
    cases hfp : fetch p.url with
    | error e' => rw [hfp] at hp; cases hp
    | ok content =>
      simp only [List.cons_append]
      rw [seqDownloads]
      unfold download_to_file
      rw [hfp]
      simp only
      rw [ih post (fsWrite fs p.dest content)
        (fun q hq => hok q (List.mem_cons_of_mem _ hq))]
      simp

/-- Parallel result loop with the first failed future at task `t`: the run
raises `RuntimeError` carrying the task's label and cause. -/
theorem parResultLoop_first_failure (fetch : Fetch) (total : Nat)
    (pre : List DTask) (t : DTask) (e : Str) (hfail : fetch t.url = .error e) :
    ∀ (post : List DTask) (completed : Nat) (fs : FS),
      (∀ p ∈ pre, (fetch p.url).isOk = true) →
      (parResultLoop total ((pre ++ t :: post).map (fun q => (q, fetch q.url)))
          completed fs).2 = .error (failMsg t e) := by
  induction pre with
  | nil =>
    intro post completed fs _
    simp only [List.nil_append, List.map_cons]
    simp only [parResultLoop, hfail]
  | cons p pre ih =>
    intro post completed fs hok
    have hp : (fetch p.url).isOk = true := hok p (List.mem_cons_self _ _)
    cases hfp : fetch p.url with
    | error e' => rw [hfp] at hp; cases hp
    | ok content =>
      simp only [List.cons_append, List.map_cons]
      simp only [parResultLoop, hfp]
      have := ih post (completed + 1) (fsWrite fs p.dest content)
        (fun q hq => hok q (List.mem_cons_of_mem _ hq))
      rw [← this]

/-- C4: when task `k` (1-indexed: `k = pre.length + 1`) is the first task of
the batch to fail, the orchestrator fails identifying that task's label and
cause — in sequential mode by logging the labelled failure message and
re-raising the cause, in parallel mode by raising the labelled error — the
tasks after the failing one are never consulted in sequential mode, and in
sequential mode exactly `k` progress messages precede the failure. -/
theorem C4_first_failure_fail_fast (fetch : Fetch) (pre : List DTask)
    (t : DTask) (post : List DTask) (fs : FS) (e : Str)
    (hok : ∀ p ∈ pre, (fetch p.url).isOk = true)
    (hfail : fetch t.url = .error e) :
    seqDownloads fetch (pre ++ t :: post) fs
      = (pre.map dlMsg ++ [dlMsg t, failMsg t e], .error e) ∧
    seqDownloads fetch (pre ++ t :: post) fs = seqDownloads fetch (pre ++ [t]) fs ∧
    ((seqDownloads fetch (pre ++ t :: post) fs).1.dropLast.filter isProgressMsg).length
      = pre.length + 1 ∧
    ((seqDownloads fetch (pre ++ t :: post) fs).1.getLast? = some (failMsg t e)) ∧
    (parResultLoop (pre ++ t :: post).length
        ((pre ++ t :: post).map (fun q => (q, fetch q.url))) 0 fs).2
      = .error (failMsg t e) := by
  have hseq := seqDownloads_first_failure fetch pre t e hfail post fs hok
  have hseq1 := seqDownloads_first_failure fetch pre t e hfail [] fs hok
  refine ⟨hseq, hseq.trans hseq1.symm, ?_, ?_, ?_⟩
  · rw [hseq]
    simp only
    have hform : pre.map dlMsg ++ [dlMsg t, failMsg t e]
        = (pre.map dlMsg ++ [dlMsg t]) ++ [failMsg t e] := by simp
    rw [hform, List.dropLast_concat, List.filter_append]
    simp [List.filter_map, Function.comp, isProgressMsg_dlMsg]
  · rw [hseq]
    simp only
    have hform : pre.map dlMsg ++ [dlMsg t, failMsg t e]
        = (pre.map dlMsg ++ [dlMsg t]) ++ [failMsg t e] := by simp
    rw [hform, List.getLast?_concat]
  · exact parResultLoop_first_failure fetch _ pre t e hfail post 0 fs hok

/-- C4 witness: a three-task batch whose second task is the first to fail, at
a concrete fetch — one progress message per started task, the labelled
failure message last, the cause re-raised, and the third task never
started. -/
theorem C4_first_failure_fail_fast_witness :
    seqDownloads
        (fun u => if u = chars "u1" then .ok (chars "c1") else .error (chars "boom"))
        [⟨chars "u1", chars "d1", chars "lib1"⟩, ⟨chars "u2", chars "d2", chars "lib2"⟩,
          ⟨chars "u3", chars "d3", chars "lib3"⟩] []
      = ([dlMsg ⟨chars "u1", chars "d1", chars "lib1"⟩,
          dlMsg ⟨chars "u2", chars "d2", chars "lib2"⟩,
          failMsg ⟨chars "u2", chars "d2", chars "lib2"⟩ (chars "boom")],
          .error (chars "boom")) := by
  have h := C4_first_failure_fail_fast
    (fun u => if u = chars "u1" then .ok (chars "c1") else .error (chars "boom"))
    [⟨chars "u1", chars "d1", chars "lib1"⟩] ⟨chars "u2", chars "d2", chars "lib2"⟩
    [⟨chars "u3", chars "d3", chars "lib3"⟩] [] (chars "boom")
    (by decide) rfl
  exact h.1

/-- C3 counterexample: a single-task batch whose destination is already
present in the filesystem, and whose source URL errors when fetched.  The
orchestrator does not skip the task: it fetches, the fetch fails, and the
batch fails — against the claim that the task is skipped and the batch
succeeds. -/
theorem C3_preexisting_destination_counterexample :
    fsHas [(chars "d", chars "content")] (chars "d") = true ∧
    (parallel_download_files true (fun _ => .error (chars "boom"))
        [⟨chars "u", chars "d", chars "lib"⟩] [(chars "d", chars "content")]).2
      = .error (chars "boom") :=
  ⟨by decide, rfl⟩

/-- C3 (amended): the orchestrator never checks destination existence — a
task whose destination pre-exists is fetched anyway (overwriting on success,
failing the batch on error); existing-file short-circuiting happens only at
the asset-task construction site, which excludes every object whose target
already exists from the batch before the orchestrator runs. -/
theorem C3_skip_only_at_asset_construction :
    (∀ (fetch : Fetch) (fs : FS) (url dest content : Str),
      fsHas fs dest = true →
      (fetch url = .ok content →
        download_to_file fetch fs url dest = .ok (fsWrite fs dest content)) ∧
      (∀ e, fetch url = .error e → download_to_file fetch fs url dest = .error e)) ∧
    (∀ (assetBase objectsDir : Str) (objects : List (Str × Str)) (fs : FS),
      ∀ t ∈ assetTasksOf assetBase objectsDir objects fs,
        fsHas fs t.dest = false) := by
  constructor
  · intro fetch fs url dest content _
    constructor
    · intro hok
      unfold download_to_file
      rw [hok]
    · intro e herr
      unfold download_to_file
      rw [herr]
  · intro assetBase objectsDir objects fs t ht
    unfold assetTasksOf at ht
    rw [List.mem_filterMap] at ht
    obtain ⟨o, _, hf⟩ := ht
    simp only at hf
    split at hf
    · cases hf
    · cases hf
      rename_i hno
      simp only [Bool.not_eq_true] at hno
      simpa using hno

/-- C3 witness: the theorem applied at a pre-seeded destination that is
re-fetched and overwritten, and at an asset-object list whose single target is
pre-seeded (so it generates no task). -/
theorem C3_skip_only_at_asset_construction_witness :
    download_to_file (fun _ => .ok (chars "new")) [(chars "d", chars "old")]
        (chars "u") (chars "d")
      = .ok (fsWrite [(chars "d", chars "old")] (chars "d") (chars "new")) ∧
    download_to_file (fun _ => .error (chars "boom")) [(chars "d", chars "old")]
        (chars "u") (chars "d")
      = .error (chars "boom") ∧
    ∀ t ∈ assetTasksOf (chars "base") (chars "objects")
        [(chars "name", chars "abcdef")] [(chars "objects/ab/abcdef", chars "x")],
      fsHas [(chars "objects/ab/abcdef", chars "x")] t.dest = false :=
  ⟨(C3_skip_only_at_asset_construction.1 (fun _ => .ok (chars "new"))
      [(chars "d", chars "old")] (chars "u") (chars "d") (chars "new")
      (by decide)).1 rfl,
    (C3_skip_only_at_asset_construction.1 (fun _ => .error (chars "boom"))
      [(chars "d", chars "old")] (chars "u") (chars "d") []
      (by decide)).2 (chars "boom") rfl,
    C3_skip_only_at_asset_construction.2 (chars "base") (chars "objects")
      [(chars "name", chars "abcdef")] [(chars "objects/ab/abcdef", chars "x")]⟩

/-- In the manifest `files` loop, a valid, required entry whose API lookup
yields no URL lands in the warning list. -/
theorem cfTasksWarnings_warn (resolver : Nat → Nat → Str) (modsDir : Str) :
    ∀ (files : List CFEntry) (e : CFEntry), e ∈ files →
      truthyNat e.projectID = true → truthyNat e.fileID = true →
      resolver (e.projectID.getD 0) (e.fileID.getD 0) = [] →
      e.required = true →
      warnOf e ∈ (cfTasksWarnings resolver modsDir files).2 := by
  intro files
  induction files with
  | nil => intro e he; cases he
  | cons f rest ih =>
    intro e he hp hf hr hreq
    rw [cfTasksWarnings]
    rcases hrw : cfTasksWarnings resolver modsDir rest with ⟨ts, ws⟩
    simp only
    rcases List.mem_cons.mp he with rfl | hmem
    · rw [if_pos ⟨hp, hf⟩]
      simp only [hr, ne_eq, not_true_eq_false, if_false, if_neg]
      rw [if_pos hreq]
      exact List.mem_cons_self _ _
    · have hrec := ih e hmem hp hf hr hreq
      rw [hrw] at hrec
      split
      · split
        · exact hrec
        · split
          · exact List.mem_cons_of_mem _ hrec
          · exact hrec
      · exact hrec

/-- Every task the manifest loop emits carries a non-empty URL: an entry the
API lookup could not resolve never reaches the orchestrator. -/
theorem cfTasksWarnings_tasks_url_ne (resolver : Nat → Nat → Str) (modsDir : Str) :
    ∀ (files : List CFEntry), ∀ t ∈ (cfTasksWarnings resolver modsDir files).1,
      t.url ≠ [] := by
  intro files
  induction files with
  | nil => intro t ht; cases ht
  | cons f rest ih =>
    intro t ht
    rw [cfTasksWarnings] at ht
    rcases hrw : cfTasksWarnings resolver modsDir rest with ⟨ts, ws⟩
    rw [hrw] at ht
    simp only at ht
    have ihw : ∀ q ∈ ts, q.url ≠ [] := by
      intro q hq
      exact ih q (by rw [hrw]; exact hq)
    revert ht
    split
    · split
      · intro ht
        rcases List.mem_cons.mp ht with rfl | hmem
        · simpa using (by assumption : ¬ _ = ([] : Str))
        · exact ihw t hmem
      · split
        · exact fun ht => ihw t ht
        · exact fun ht => ihw t ht
    · exact fun ht => ihw t ht

/-- A sequential batch in which every fetch succeeds succeeds. -/
theorem seqDownloads_all_ok (fetch : Fetch) :
    ∀ (tasks : List DTask) (fs : FS),
      (∀ t ∈ tasks, (fetch t.url).isOk = true) →
      ((seqDownloads fetch tasks fs).2).isOk = true := by
  intro tasks
  induction tasks with
  | nil => intro fs _; rfl
  | cons t rest ih =>
    intro fs hok
    have ht : (fetch t.url).isOk = true := hok t (List.mem_cons_self _ _)
    cases hft : fetch t.url with
    | error e => rw [hft] at ht; cases ht
    | ok content =>
      rw [seqDownloads]
      unfold download_to_file
      rw [hft]
      simp only
      have := ih (fsWrite fs t.dest content)
        (fun q hq => hok q (List.mem_cons_of_mem _ hq))
      rcases hrec : seqDownloads fetch rest (fsWrite fs t.dest content) with ⟨log, res⟩
      rw [hrec] at this
      exact this

/-- A parallel result loop in which every fetch succeeded succeeds. -/
theorem parResultLoop_all_ok (fetch : Fetch) (total : Nat) :
    ∀ (tasks : List DTask) (completed : Nat) (fs : FS),
      (∀ t ∈ tasks, (fetch t.url).isOk = true) →
      ((parResultLoop total (tasks.map (fun q => (q, fetch q.url))) completed fs).2).isOk
        = true := by
  intro tasks
  induction tasks with
  | nil => intro completed fs _; rfl
  | cons t rest ih =>
    intro completed fs hok
    have ht : (fetch t.url).isOk = true := hok t (List.mem_cons_self _ _)
    cases hft : fetch t.url with
    | error e => rw [hft] at ht; cases ht
    | ok content =>
      simp only [List.map_cons]
      simp only [parResultLoop, hft]
      have := ih (completed + 1) (fsWrite fs t.dest content)
        (fun q hq => hok q (List.mem_cons_of_mem _ hq))
      rcases hrec : parResultLoop total (rest.map (fun q => (q, fetch q.url)))
        (completed + 1) (fsWrite fs t.dest content) with ⟨log, res⟩
      rw [hrec] at this
      exact this

/-- A batch in which every fetch succeeds succeeds, in either mode. -/
theorem parallel_download_files_all_ok (parallelEnabled : Bool) (fetch : Fetch)
    (tasks : List DTask) (fs : FS)
    (hok : ∀ t ∈ tasks, (fetch t.url).isOk = true) :
    ((parallel_download_files parallelEnabled fetch tasks fs).2).isOk = true := by
  unfold parallel_download_files
  split
  · exact seqDownloads_all_ok fetch tasks fs hok
  · exact parResultLoop_all_ok fetch tasks.length tasks 0 fs hok

/-- C9 (amended): in a CurseForge import, a valid remote entry that cannot be
resolved to a URL produces a warning when it is `required` and is skipped
silently otherwise; either way it contributes no download task (every emitted
task has a non-empty URL), the bundled `mods/*.jar` entries are extracted
regardless, and the import completes without raising whenever every emitted
task's fetch succeeds — so an unresolvable remote entry never aborts the
import. -/
theorem C9_import_unresolvable_entry (m : CFManifest) (namelist : List Str)
    (resolver : Nat → Nat → Str) (modsDir : Str) (pe : Bool) (fetch : Fetch)
    (fs : FS) :
    (∀ e ∈ m.files, truthyNat e.projectID = true → truthyNat e.fileID = true →
      resolver (e.projectID.getD 0) (e.fileID.getD 0) = [] → e.required = true →
      warnOf e ∈ (cfTasksWarnings resolver modsDir m.files).2) ∧
    (∀ t ∈ (cfTasksWarnings resolver modsDir m.files).1, t.url ≠ []) ∧
    (∀ res, import_curseforge_modpack (some m) namelist resolver modsDir pe
        fetch fs = .ok res →
      res.extracted = bundledModsOf namelist ∧
      res.warnings = (cfTasksWarnings resolver modsDir m.files).2) ∧
    ((∀ t ∈ (cfTasksWarnings resolver modsDir m.files).1, (fetch t.url).isOk = true) →
      (import_curseforge_modpack (some m) namelist resolver modsDir pe
        fetch fs).isOk = true) := by
  refine ⟨fun e he => cfTasksWarnings_warn resolver modsDir m.files e he,
    cfTasksWarnings_tasks_url_ne resolver modsDir m.files, ?_, ?_⟩
  · intro res hres
    unfold import_curseforge_modpack at hres
    simp only at hres
    split at hres
    · cases hres
    · cases hres
      exact ⟨rfl, rfl⟩
  · intro hok
    unfold import_curseforge_modpack
    simp only
    split
    · rename_i e herr
      by_cases hempty : (cfTasksWarnings resolver modsDir m.files).1.isEmpty
      · rw [if_pos hempty] at herr
        cases herr
      · rw [if_neg hempty] at herr
        have := parallel_download_files_all_ok pe fetch
          (cfTasksWarnings resolver modsDir m.files).1 fs hok
        rcases hdl : (parallel_download_files pe fetch
          (cfTasksWarnings resolver modsDir m.files).1 fs).2 with _ | _
        · rw [hdl] at this; cases this
        · rw [hdl] at herr; cases herr
    · rfl

/-- C9 witness: the theorem applied to a manifest with one required
unresolvable entry and an archive with one bundled mod — the warning is
logged, no task is emitted, the bundled file is extracted, and the import
completes. -/
theorem C9_import_unresolvable_entry_witness :
    warnOf ⟨some 11, some 22, true⟩ ∈
      (cfTasksWarnings (fun _ _ => []) (chars "mods")
        [(⟨some 11, some 22, true⟩ : CFEntry)]).2 ∧
    (import_curseforge_modpack
        (some ⟨chars "1.20.1", [chars "forge-47.2.0"], [⟨some 11, some 22, true⟩]⟩)
        [chars "mods/bundled.jar"] (fun _ _ => []) (chars "mods") true
        (fun _ => .error (chars "network down")) []).isOk = true := by
  have h := C9_import_unresolvable_entry
    ⟨chars "1.20.1", [chars "forge-47.2.0"], [⟨some 11, some 22, true⟩]⟩
    [chars "mods/bundled.jar"] (fun _ _ => []) (chars "mods") true
    (fun _ => .error (chars "network down")) []
  exact ⟨h.1 ⟨some 11, some 22, true⟩ (by decide) (by decide) (by decide)
      (by decide) (by decide),
    h.2.2.2 (by intro t ht; cases ht)⟩

/-- C9 counterexample: an entry with `required: false` whose API lookup
yields no URL is skipped *silently* — the import extracts the bundled file
and completes, but logs no warning for the unresolvable entry, against the
claim that every unresolvable remote entry is logged as a skipped warning. -/
theorem C9_optional_unresolvable_counterexample :
    import_curseforge_modpack
        (some ⟨chars "1.20.1", [chars "forge-47.2.0"], [⟨some 11, some 22, false⟩]⟩)
        [chars "mods/bundled.jar"] (fun _ _ => []) (chars "mods") true
        (fun _ => .error (chars "network down")) []
      = .ok ⟨chars "1.20.1", chars "forge", chars "47.2.0", [], [],
          [chars "bundled.jar"], []⟩ := by
  rfl

/-- Python list comparison is total. -/
theorem pyLeB_total : ∀ a b : List Int, pyLeB a b = true ∨ pyLeB b a = true := by
  intro a
  induction a with
  | nil => intro b; left; rfl
  | cons x xs ih =>
    intro b
    cases b with
    | nil => right; rfl
    | cons y ys =>
      rcases lt_trichotomy x y with hlt | heq | hgt
      · left; simp [pyLeB, hlt]
      · subst heq
        rcases ih ys with h | h
        · left; simp [pyLeB, lt_irrefl, h]
        · right; simp [pyLeB, lt_irrefl, h]
      · right; simp [pyLeB, hgt]

/-- Python list comparison is transitive. -/
theorem pyLeB_trans : ∀ a b c : List Int,
    pyLeB a b = true → pyLeB b c = true → pyLeB a c = true := by
  intro a
  induction a with
  | nil => intro b c _ _; rfl
  | cons x xs ih =>
    intro b c h1 h2
    cases b with
    | nil => cases h1
    | cons y ys =>
      cases c with
      | nil => cases h2
      | cons z zs =>
        simp only [pyLeB] at h1 h2 ⊢
        split_ifs at h1 h2 ⊢ <;>
          first
            | rfl
            | omega
            | (exact ih ys zs h1 h2)

/-- Membership in the NeoForge filter loop: exactly the input entries whose
leading dot-component matches the game version's. -/
theorem collectNeoForge_mem (mc : Str) :
    ∀ (texts acc : List Str) (v : Str),
      v ∈ collectNeoForge mc acc texts ↔
        v ∈ acc ∨ (v ∈ texts ∧ (splitDot v).headI = (splitDot mc).headI) := by
  intro texts
  induction texts with
  | nil =>
    intro acc v
    simp [collectNeoForge]
  | cons t rest ih =>
    intro acc v
    rw [collectNeoForge]
    split
    · rename_i hpos
      rw [ih]
      simp only [List.mem_append, List.mem_cons, List.not_mem_nil, or_false,
        List.mem_singleton]
      constructor
      · rintro ((hv | rfl) | ⟨hv, hc⟩)
        · exact .inl hv
        · exact .inr ⟨.inl rfl, hpos.1⟩
        · exact .inr ⟨.inr hv, hc⟩
      · rintro (hv | ⟨rfl | hv, hc⟩)
        · exact .inl (.inl hv)
        · exact .inl (.inr rfl)
        · exact .inr ⟨hv, hc⟩
    · rename_i hneg
      rw [ih]
      simp only [List.mem_cons]
      constructor
      · rintro (hv | ⟨hv, hc⟩)
        · exact .inl hv
        · exact .inr ⟨.inr hv, hc⟩
      · rintro (hv | ⟨rfl | hv, hc⟩)
        · exact .inl hv
        · rcases not_and_or.mp hneg with hnc | hmem
          · exact absurd hc hnc
          · exact .inl (not_not.mp hmem)
        · exact .inr ⟨hv, hc⟩

/-- The guarded sort, when every key parses, is sorted descending (stable)
on the embedded Python key comparison. -/
theorem trySortDesc_sorted (key? : Str → Option (List Int))
    (versions : List Str)
    (hall : versions.all (fun v => (key? v).isSome) = true) :
    List.Sorted (fun a b => pyLeB ((key? b).getD []) ((key? a).getD []) = true)
      (trySortDesc key? versions) := by
  haveI : IsTotal Str
      (fun a b => pyLeB ((key? b).getD []) ((key? a).getD []) = true) :=
    ⟨fun a b => pyLeB_total ((key? b).getD []) ((key? a).getD [])⟩
  haveI : IsTrans Str
      (fun a b => pyLeB ((key? b).getD []) ((key? a).getD []) = true) :=
    ⟨fun a b c h1 h2 => pyLeB_trans _ _ _ h2 h1⟩
  unfold trySortDesc
  rw [if_pos hall]
  exact List.sorted_insertionSort _ _

/-- The guarded sort permutes its input. -/
theorem trySortDesc_perm (key? : Str → Option (List Int)) (versions : List Str) :
    List.Perm (trySortDesc key? versions) versions := by
  unfold trySortDesc
  split
  · exact List.perm_insertionSort _ _
  · exact List.reverse_perm _

/-- C6 counterexample: two flaws at concrete inputs.  With entries
`20.4.2, 20.4.109` for game version `20.4`, a descending numeric-tuple order
would put `20.4.109` first, but the sort key only uses the first two
components, so the stable sort leaves the document order.  With entries
`20.b, 20.a` (numeric parse failure), raw reverse lexical order would put
`20.b` first, but the fallback merely reverses the filtered list. -/
theorem C6_neoforge_order_counterexample :
    get_available_neoforge_versions (.ok [chars "20.4.2", chars "20.4.109"])
        (chars "20.4")
      = [chars "20.4.2", chars "20.4.109"] ∧
    ¬ get_available_neoforge_versions (.ok [chars "20.4.2", chars "20.4.109"])
        (chars "20.4")
      = [chars "20.4.109", chars "20.4.2"] ∧
    get_available_neoforge_versions (.ok [chars "20.b", chars "20.a"]) (chars "20")
      = [chars "20.a", chars "20.b"] ∧
    ¬ get_available_neoforge_versions (.ok [chars "20.b", chars "20.a"]) (chars "20")
      = [chars "20.b", chars "20.a"] := by
  refine ⟨by decide, by decide, by decide, by decide⟩

/-- C6 (amended): the NeoForge resolver keeps exactly the (deduplicated)
entries whose leading version component equals the game version's leading
component, returns at most 15 candidates, orders them by descending stable
comparison of the numeric key formed from the *first two* version components,
and when numeric parsing of any kept entry's first two components fails,
falls back to reversing the filtered list (reversed document order, not a
lexical sort); being a total function it never raises. -/
theorem C6_neoforge_filter_sort (mc : Str) (texts : List Str) :
    (∀ v, v ∈ collectNeoForge mc [] texts ↔
      v ∈ texts ∧ (splitDot v).headI = (splitDot mc).headI) ∧
    (get_available_neoforge_versions (.ok texts) mc).length ≤ 15 ∧
    (collectNeoForge mc [] texts ≠ [] →
      ∀ v ∈ get_available_neoforge_versions (.ok texts) mc,
        v ∈ texts ∧ (splitDot v).headI = (splitDot mc).headI) ∧
    ((collectNeoForge mc [] texts).all (fun v => (neoforgeKey? v).isSome) = true →
      List.Sorted
        (fun a b => pyLeB ((neoforgeKey? b).getD []) ((neoforgeKey? a).getD []) = true)
        (get_available_neoforge_versions (.ok texts) mc)) ∧
    (¬ (collectNeoForge mc [] texts).all (fun v => (neoforgeKey? v).isSome) = true →
      collectNeoForge mc [] texts ≠ [] →
      get_available_neoforge_versions (.ok texts) mc
        = (collectNeoForge mc [] texts).reverse.take 15) := by
  have hmem : ∀ v, v ∈ collectNeoForge mc [] texts ↔
      v ∈ texts ∧ (splitDot v).headI = (splitDot mc).headI := by
    intro v
    rw [collectNeoForge_mem]
    simp
  have hperm := trySortDesc_perm neoforgeKey? (collectNeoForge mc [] texts)
  have hne : collectNeoForge mc [] texts ≠ [] →
      ¬ (trySortDesc neoforgeKey? (collectNeoForge mc [] texts)).isEmpty = true := by
    intro h hc
    have he : trySortDesc neoforgeKey? (collectNeoForge mc [] texts) = [] :=
      List.isEmpty_iff.mp hc
    rw [he] at hperm
    exact h hperm.symm.eq_nil
  refine ⟨hmem, ?_, ?_, ?_, ?_⟩
  · unfold get_available_neoforge_versions
    simp only
    split
    · simp
    · exact le_trans (List.length_take_le _ _) (le_refl _)
  · intro h v hv
    unfold get_available_neoforge_versions at hv
    simp only at hv
    rw [if_neg (hne h)] at hv
    have : v ∈ trySortDesc neoforgeKey? (collectNeoForge mc [] texts) :=
      List.mem_of_mem_take hv
    exact (hmem v).mp (hperm.mem_iff.mp this)
  · intro hall
    unfold get_available_neoforge_versions
    simp only
    split
    · simp
    · exact ((trySortDesc_sorted neoforgeKey? _ hall).sublist
        (List.take_sublist _ _))
  · intro hfail h
    unfold get_available_neoforge_versions
    simp only
    rw [if_neg (hne h)]
    unfold trySortDesc
    rw [if_neg hfail]

/-- C6 witness: the theorem applied at a concrete upstream list — filtering,
the 15-candidate bound, descending first-two-component order on parseable
entries, and the reversal fallback on a parse failure, all at once. -/
theorem C6_neoforge_filter_sort_witness :
    ((chars "20.2.9") ∈ collectNeoForge (chars "20.4") []
        [chars "20.2.9", chars "21.0.1", chars "20.6.1"] ∧
      (splitDot (chars "20.2.9")).headI = (splitDot (chars "20.4")).headI) ∧
    List.Sorted
      (fun a b => pyLeB ((neoforgeKey? b).getD []) ((neoforgeKey? a).getD []) = true)
      (get_available_neoforge_versions
        (.ok [chars "20.2.9", chars "21.0.1", chars "20.6.1"]) (chars "20.4")) ∧
    get_available_neoforge_versions (.ok [chars "20.b", chars "20.a"]) (chars "20")
      = (collectNeoForge (chars "20") [] [chars "20.b", chars "20.a"]).reverse.take 15 ∧
    (chars "20.6.1" ∈ [chars "20.2.9", chars "21.0.1", chars "20.6.1"] ∧
      (splitDot (chars "20.6.1")).headI = (splitDot (chars "20.4")).headI) := by
  refine ⟨?_, ?_, ?_, ?_⟩
  · refine ⟨((C6_neoforge_filter_sort (chars "20.4")
      [chars "20.2.9", chars "21.0.1", chars "20.6.1"]).1 (chars "20.2.9")).mpr
      (by decide), by decide⟩
  · exact (C6_neoforge_filter_sort (chars "20.4")
      [chars "20.2.9", chars "21.0.1", chars "20.6.1"]).2.2.2.1 (by decide)
  · exact (C6_neoforge_filter_sort (chars "20")
      [chars "20.b", chars "20.a"]).2.2.2.2 (by decide) (by decide)
  · exact (C6_neoforge_filter_sort (chars "20.4")
      [chars "20.2.9", chars "21.0.1", chars "20.6.1"]).2.2.1 (by decide)
      (chars "20.6.1") (by decide)

/-- If no key of the table occurs in `s`, the substitution pass leaves `s`
unchanged (whatever the values are). -/
theorem applySubs_no_key (subs : List (Str × Str)) :
    ∀ s, (∀ k' ∈ subs.map Prod.fst, hasSub k' s = false) →
      applySubstitutions subs s = s := by
  induction subs with
  | nil => intro s _; rfl
  | cons kv rest ih =>
    intro s h
    unfold applySubstitutions at *
    rw [List.foldl_cons,
      pyReplace_of_not_hasSub kv.2 (h kv.1 (by simp)),
      ih s (fun k' hk' => h k' (by simp [hk']))]

/-- A string without `${` is untouched by a table whose keys all start with
`${`. -/
theorem applySubs_nodollar (subs : List (Str × Str)) (s : Str)
    (hkeys : ∀ k' ∈ subs.map Prod.fst, isPrefArr dollarBrace k' = true)
    (hs : hasSub dollarBrace s = false) :
    applySubstitutions subs s = s :=
  applySubs_no_key subs s
    (fun k' hk' => not_hasSub_of_pref_of_not_hasSub (hkeys k' hk') hs)

/-- Substituting a string that is exactly the `k`-th key: the keys before it
do not occur in it, it is replaced by its value, and — the value being
`${`-free and the later keys `${`-prefixed — the later passes are no-ops. -/
theorem applySubs_split (pre post : List (Str × Str)) (k v : Str)
    (hk : k ≠ [])
    (hpre : ∀ k' ∈ pre.map Prod.fst, hasSub k' k = false)
    (hv : hasSub dollarBrace v = false)
    (hpost : ∀ k' ∈ post.map Prod.fst, isPrefArr dollarBrace k' = true) :
    applySubstitutions (pre ++ (k, v) :: post) k = v := by
  unfold applySubstitutions
  rw [List.foldl_append]
  have h1 := applySubs_no_key pre k hpre
  unfold applySubstitutions at h1
  rw [h1, List.foldl_cons]
  simp only
  rw [pyReplace_self v hk]
  have h2 := applySubs_nodollar post v hpost hv
  unfold applySubstitutions at h2
  exact h2

/-- C2 counterexample: with a configuration missing both the player name
and the working directory, the synthesizer emits the specification anyway —
`${auth_player_name}` becomes the default `"Player"` and the game directory
the default instances path — instead of failing with a synthesis error; and
a token outside the fixed table (`${resolution_width}`) is left in place, not
substituted with an empty string. -/
theorem C2_missing_required_counterexample :
    generate_java_args_lines
        ⟨chars "1.20.1",
          ⟨some ⟨[], [some (chars "--username"), some (chars "${auth_player_name}"),
            some (chars "--gameDir"), some (chars "${game_directory}")]⟩,
            [], some (chars "net.minecraft.client.main.Main"), some (chars "5")⟩,
          false, [], '/', chars "versions/1.20.1", chars "assets",
          chars "instances/1.20.1"⟩ []
      = [chars "-cp", chars "versions/1.20.1/1.20.1.jar",
          chars "net.minecraft.client.main.Main",
          chars "--username", chars "Player",
          chars "--gameDir", chars "instances/1.20.1"] ∧
    applySubstitutions
        (substitutionsFor
          ⟨chars "1.20.1",
            ⟨some ⟨[], []⟩, [], none, none⟩,
            false, [], '/', chars "versions/1.20.1", chars "assets",
            chars "instances/1.20.1"⟩ [])
        (chars "${resolution_width}")
      = chars "${resolution_width}" := by
  constructor
  · decide
  · decide

/-- C2 (amended): the synthesizer never fails on a missing configuration
field — a missing player name is defaulted to `"Player"` and a missing (or
empty) working directory to the default per-version instances path; of the
fixed tokens only `${auth_xuid}` is substituted with the empty string, and
tokens outside the fixed table are left in place, not blanked. -/
theorem C2_missing_config_defaults (inp : SynthInput) (cfg : Config) :
    (cfgGet cfg (chars "auth_player_name") = none →
      cfgGetD cfg (chars "auth_player_name") (chars "Player") = chars "Player") ∧
    (cfgGet cfg (chars "minecraft_dir") = none ∨
        cfgGet cfg (chars "minecraft_dir") = some [] →
      gameDirOf inp cfg = inp.defaultGameDir) ∧
    (chars "${auth_xuid}", []) ∈ substitutionsFor inp cfg ∧
    applySubstitutions (substitutionsFor inp cfg) (chars "${resolution_width}")
      = chars "${resolution_width}" := by
  refine ⟨?_, ?_, ?_, ?_⟩
  · intro h
    unfold cfgGetD
    rw [h]
    rfl
  · intro h
    unfold gameDirOf
    rcases h with h | h <;> simp [h]
  · exact List.mem_cons_of_mem _ (List.mem_cons_of_mem _ (List.mem_cons_of_mem _
      (List.mem_cons_of_mem _ (List.mem_cons_of_mem _ (List.mem_cons_of_mem _
      (List.mem_cons_of_mem _ (List.mem_cons_of_mem _ (List.mem_cons_of_mem _
      (List.mem_cons_of_mem _ (List.mem_cons_self _ _))))))))))
  · refine applySubs_no_key _ _ ?_
    intro k' hk'
    revert hk'
    unfold substitutionsFor
    simp only [List.map_cons, List.map_nil, List.mem_cons, List.not_mem_nil,
      or_false]
    rintro (rfl | rfl | rfl | rfl | rfl | rfl | rfl | rfl | rfl | rfl | rfl) <;>
      decide

/-- C2 witness: the theorem applied at the empty configuration — both
defaults fire. -/
theorem C2_missing_config_defaults_witness :
    cfgGetD [] (chars "auth_player_name") (chars "Player") = chars "Player" ∧
    gameDirOf
        ⟨chars "1.20.1", ⟨none, [], none, none⟩, false, [], '/',
          chars "versions/1.20.1", chars "assets", chars "instances/1.20.1"⟩ []
      = chars "instances/1.20.1" := by
  constructor
  · exact (C2_missing_config_defaults
      ⟨chars "1.20.1", ⟨none, [], none, none⟩, false, [], '/',
        chars "versions/1.20.1", chars "assets", chars "instances/1.20.1"⟩ []).1 rfl
  · exact (C2_missing_config_defaults
      ⟨chars "1.20.1", ⟨none, [], none, none⟩, false, [], '/',
        chars "versions/1.20.1", chars "assets", chars "instances/1.20.1"⟩ []).2.1
      (.inl rfl)

/-- Substituting a string that is exactly a table key, with a `${`-free
value: the result is the value and stays `${`-free. -/
theorem applySubs_key_nodollar (pre post : List (Str × Str)) (k v : Str)
    (hk : k ≠ [])
    (hpre : ∀ k' ∈ pre.map Prod.fst, hasSub k' k = false)
    (hv : hasSub dollarBrace v = false)
    (hpost : ∀ k' ∈ post.map Prod.fst, isPrefArr dollarBrace k' = true) :
    hasSub dollarBrace (applySubstitutions (pre ++ (k, v) :: post) k) = false := by
  rw [applySubs_split pre post k v hk hpre hv hpost]
  exact hv

/-- C1 counterexample: a well-formed descriptor whose JVM argument templates
carry placeholders (`${natives_directory}`, `${classpath}`, as real upstream
version JSONs do): the emitted specification retains a `${` substring,
because only game arguments are substituted. -/
theorem C1_residual_placeholder_counterexample :
    (generate_java_args_lines
        ⟨chars "1.20.1",
          ⟨some ⟨[some (chars "-Djava.library.path=${natives_directory}"),
                some (chars "-cp"), some (chars "${classpath}")],
              [some (chars "--username"), some (chars "${auth_player_name}")]⟩,
            [], some (chars "net.minecraft.client.main.Main"), some (chars "5")⟩,
          false, [], '/', chars "versions/1.20.1", chars "assets",
          chars "instances/1.20.1"⟩ []).any (fun l => hasSub dollarBrace l)
      = true := by
  decide

/-- C1 (amended): the synthesizer substitutes only the game-argument lines —
every string JVM template is emitted verbatim (so a placeholder there
survives, as the counterexample shows); and for every game argument of a
standard well-formed descriptor, whose placeholders all come from the fixed
table, no residual `${` remains after substitution, provided the substitution
values themselves contain no `${`. -/
theorem C1_substitution_scope (inp : SynthInput) (cfg : Config)
    (hvals : ∀ kv ∈ substitutionsFor inp cfg, hasSub dollarBrace kv.2 = false) :
    (∀ a s, inp.version_data.arguments = some a → some s ∈ a.jvm →
      s ∈ generate_java_args_lines inp cfg) ∧
    (∀ arg ∈ stdGameArgs,
      hasSub dollarBrace (applySubstitutions (substitutionsFor inp cfg) arg)
        = false) := by
  have hkeys : ∀ k' ∈ (substitutionsFor inp cfg).map Prod.fst,
      isPrefArr dollarBrace k' = true := by
    show ∀ k' ∈ subKeys, isPrefArr dollarBrace k' = true
    decide
  constructor
  · intro a s ha hs
    have h1 : s ∈ jvmArgs0 inp := by
      unfold jvmArgs0
      rw [ha]
      exact List.mem_filterMap.mpr ⟨some s, hs, rfl⟩
    show s ∈ ((jvmArgs0 inp ++ [chars "-cp", classpathOf inp]) ++
      [inp.version_data.mainClass.getD (chars "net.minecraft.client.main.Main")]) ++
      (gameArgs0 inp).map (applySubstitutions (substitutionsFor inp cfg))
    exact List.mem_append_left _ (List.mem_append_left _ (List.mem_append_left _ h1))
  · intro arg harg
    simp only [stdGameArgs, List.mem_cons, List.not_mem_nil, or_false] at harg
    rcases harg with rfl | rfl | rfl | rfl | rfl | rfl | rfl | rfl | rfl | rfl |
      rfl | rfl | rfl | rfl | rfl | rfl | rfl | rfl | rfl | rfl | rfl | rfl
    · rw [applySubs_nodollar _ _ hkeys (by decide)]; decide
    · exact applySubs_key_nodollar ((substitutionsFor inp cfg).take 0)
        ((substitutionsFor inp cfg).drop 1) (chars "${auth_player_name}")
        (cfgGetD cfg (chars "auth_player_name") (chars "Player"))
        (by decide)
        (by
          show ∀ k' ∈ subKeys.take 0, hasSub k' (chars "${auth_player_name}") = false
          decide)
        (hvals (chars "${auth_player_name}",
          cfgGetD cfg (chars "auth_player_name") (chars "Player"))
          (by simp [substitutionsFor]))
        (by
          show ∀ k' ∈ subKeys.drop 1, isPrefArr dollarBrace k' = true
          decide)
    · rw [applySubs_nodollar _ _ hkeys (by decide)]; decide
    · exact applySubs_key_nodollar ((substitutionsFor inp cfg).take 1)
        ((substitutionsFor inp cfg).drop 2) (chars "${version_name}")
        inp.version_id
        (by decide)
        (by
          show ∀ k' ∈ subKeys.take 1, hasSub k' (chars "${version_name}") = false
          decide)
        (hvals (chars "${version_name}", inp.version_id)
          (by simp [substitutionsFor]))
        (by
          show ∀ k' ∈ subKeys.drop 2, isPrefArr dollarBrace k' = true
          decide)
    · rw [applySubs_nodollar _ _ hkeys (by decide)]; decide
    · exact applySubs_key_nodollar ((substitutionsFor inp cfg).take 2)
        ((substitutionsFor inp cfg).drop 3) (chars "${game_directory}")
        (gameDirOf inp cfg)
        (by decide)
        (by
          show ∀ k' ∈ subKeys.take 2, hasSub k' (chars "${game_directory}") = false
          decide)
        (hvals (chars "${game_directory}", gameDirOf inp cfg)
          (by simp [substitutionsFor]))
        (by
          show ∀ k' ∈ subKeys.drop 3, isPrefArr dollarBrace k' = true
          decide)
    · rw [applySubs_nodollar _ _ hkeys (by decide)]; decide
    · exact applySubs_key_nodollar ((substitutionsFor inp cfg).take 3)
        ((substitutionsFor inp cfg).drop 4) (chars "${assets_root}")
        inp.assetsRootPath
        (by decide)
        (by
          show ∀ k' ∈ subKeys.take 3, hasSub k' (chars "${assets_root}") = false
          decide)
        (hvals (chars "${assets_root}", inp.assetsRootPath)
          (by simp [substitutionsFor]))
        (by
          show ∀ k' ∈ subKeys.drop 4, isPrefArr dollarBrace k' = true
          decide)
    · rw [applySubs_nodollar _ _ hkeys (by decide)]; decide
    · exact applySubs_key_nodollar ((substitutionsFor inp cfg).take 4)
        ((substitutionsFor inp cfg).drop 5) (chars "${assets_index_name}")
        (assetIndexNameOf inp)
        (by decide)
        (by
          show ∀ k' ∈ subKeys.take 4, hasSub k' (chars "${assets_index_name}") = false
          decide)
        (hvals (chars "${assets_index_name}", assetIndexNameOf inp)
          (by simp [substitutionsFor]))
        (by
          show ∀ k' ∈ subKeys.drop 5, isPrefArr dollarBrace k' = true
          decide)
    · rw [applySubs_nodollar _ _ hkeys (by decide)]; decide
    · exact applySubs_key_nodollar ((substitutionsFor inp cfg).take 5)
        ((substitutionsFor inp cfg).drop 6) (chars "${auth_uuid}")
        (cfgGetD cfg (chars "auth_uuid")
          (chars "00000000-0000-0000-0000-000000000000"))
        (by decide)
        (by
          show ∀ k' ∈ subKeys.take 5, hasSub k' (chars "${auth_uuid}") = false
          decide)
        (hvals (chars "${auth_uuid}", cfgGetD cfg (chars "auth_uuid")
          (chars "00000000-0000-0000-0000-000000000000"))
          (by simp [substitutionsFor]))
        (by
          show ∀ k' ∈ subKeys.drop 6, isPrefArr dollarBrace k' = true
          decide)
    · rw [applySubs_nodollar _ _ hkeys (by decide)]; decide
    · exact applySubs_key_nodollar ((substitutionsFor inp cfg).take 6)
        ((substitutionsFor inp cfg).drop 7) (chars "${auth_access_token}")
        (cfgGetD cfg (chars "auth_access_token") (chars "0"))
        (by decide)
        (by
          show ∀ k' ∈ subKeys.take 6, hasSub k' (chars "${auth_access_token}") = false
          decide)
        (hvals (chars "${auth_access_token}",
          cfgGetD cfg (chars "auth_access_token") (chars "0"))
          (by simp [substitutionsFor]))
        (by
          show ∀ k' ∈ subKeys.drop 7, isPrefArr dollarBrace k' = true
          decide)
    · rw [applySubs_nodollar _ _ hkeys (by decide)]; decide
    · exact applySubs_key_nodollar ((substitutionsFor inp cfg).take 9)
        ((substitutionsFor inp cfg).drop 10) (chars "${clientid}")
        (chars "0")
        (by decide)
        (by
          show ∀ k' ∈ subKeys.take 9, hasSub k' (chars "${clientid}") = false
          decide)
        (hvals (chars "${clientid}", chars "0") (by simp [substitutionsFor]))
        (by
          show ∀ k' ∈ subKeys.drop 10, isPrefArr dollarBrace k' = true
          decide)
    · rw [applySubs_nodollar _ _ hkeys (by decide)]; decide
    · exact applySubs_key_nodollar ((substitutionsFor inp cfg).take 10)
        ((substitutionsFor inp cfg).drop 11) (chars "${auth_xuid}")
        (chars "")
        (by decide)
        (by
          show ∀ k' ∈ subKeys.take 10, hasSub k' (chars "${auth_xuid}") = false
          decide)
        (hvals (chars "${auth_xuid}", chars "") (by simp [substitutionsFor]))
        (by
          show ∀ k' ∈ subKeys.drop 11, isPrefArr dollarBrace k' = true
          decide)
    · rw [applySubs_nodollar _ _ hkeys (by decide)]; decide
    · exact applySubs_key_nodollar ((substitutionsFor inp cfg).take 7)
        ((substitutionsFor inp cfg).drop 8) (chars "${user_type}")
        (cfgGetD cfg (chars "user_type") (chars "mojang"))
        (by decide)
        (by
          show ∀ k' ∈ subKeys.take 7, hasSub k' (chars "${user_type}") = false
          decide)
        (hvals (chars "${user_type}",
          cfgGetD cfg (chars "user_type") (chars "mojang"))
          (by simp [substitutionsFor]))
        (by
          show ∀ k' ∈ subKeys.drop 8, isPrefArr dollarBrace k' = true
          decide)
    · rw [applySubs_nodollar _ _ hkeys (by decide)]; decide
    · exact applySubs_key_nodollar ((substitutionsFor inp cfg).take 8)
        ((substitutionsFor inp cfg).drop 9) (chars "${version_type}")
        (cfgGetD cfg (chars "version_type") (chars "release"))
        (by decide)
        (by
          show ∀ k' ∈ subKeys.take 8, hasSub k' (chars "${version_type}") = false
          decide)
        (hvals (chars "${version_type}",
          cfgGetD cfg (chars "version_type") (chars "release"))
          (by simp [substitutionsFor]))
        (by
          show ∀ k' ∈ subKeys.drop 9, isPrefArr dollarBrace k' = true
          decide)

/-- C1 witness: the theorem applied at a concrete descriptor and the empty
configuration (whose substitution values are all `${`-free): a JVM template
reappears verbatim and a token game argument substitutes `${`-free. -/
theorem C1_substitution_scope_witness :
    chars "-Xmx2G" ∈ generate_java_args_lines
      ⟨chars "1.20.1",
        ⟨some ⟨[some (chars "-Xmx2G")], []⟩, [],
          some (chars "net.minecraft.client.main.Main"), some (chars "5")⟩,
        false, [], '/', chars "versions/1.20.1", chars "assets",
        chars "instances/1.20.1"⟩ [] ∧
    hasSub dollarBrace
      (applySubstitutions
        (substitutionsFor
          ⟨chars "1.20.1",
            ⟨some ⟨[some (chars "-Xmx2G")], []⟩, [],
              some (chars "net.minecraft.client.main.Main"), some (chars "5")⟩,
            false, [], '/', chars "versions/1.20.1", chars "assets",
            chars "instances/1.20.1"⟩ [])
        (chars "${auth_player_name}")) = false := by
  have h := C1_substitution_scope
    ⟨chars "1.20.1",
      ⟨some ⟨[some (chars "-Xmx2G")], []⟩, [],
        some (chars "net.minecraft.client.main.Main"), some (chars "5")⟩,
      false, [], '/', chars "versions/1.20.1", chars "assets",
      chars "instances/1.20.1"⟩ [] (by decide)
  exact ⟨h.1 ⟨[some (chars "-Xmx2G")], []⟩ (chars "-Xmx2G") rfl (by simp),
    h.2 (chars "${auth_player_name}") (by decide)⟩

end Launcher
